import Mathlib

/-!
# A verification development for the MediaUtils rename/cache core

Shallow embedding of the core components of the MediaUtils repository:

* `DuplicateResolver.resolve_duplicates` / `_add_duplicate_suffix`
  (src/file_operations.py),
* `ConflictResolver.resolve_file_conflicts` / `find_available_name`
  (src/file_operations.py),
* `ErrorRecovery.retry_with_backoff` / `handle_network_error`
  (src/error_recovery.py),
* `CityCache` (src/city_cache.py): `set_city`, `_cleanup_cache`, `get_city`,
  `_is_coordinate_close`, `is_coordinate_cached`, `save_cache`, `load_cache`.

Conventions of the embedding:

* Python `float` is modelled as `ℚ`; the float literal `1e-10` is modelled as
  the rational `1 / 10^10` (the deviation of the IEEE double from that value
  is irrelevant at the magnitudes the code compares).
* Python `dict` (insertion ordered) is modelled as an association list
  `List (κ × ν)`; `d[k] = v` is `dictSet` (replace in place, else append),
  `d.get(k)` / `k in d` is `dictGet?`.
* The canonical coordinate key `f"{lat:.6f},{lon:.6f}"` is modelled as the
  pair of the two coordinates scaled by `10^6` and rounded half-to-even
  (the rounding used by Python string formatting of floats).
* ISO timestamp strings (which the code compares lexicographically, which for
  a fixed format agrees with chronological order) are modelled as `ℕ`; the
  ambient clock `datetime.now()` becomes an explicit `now` argument.
* Fallible calls are `Except`-valued; an uncaught Python exception propagates,
  which the `Except` bind models.
-/

/-! ## Python dict as an insertion-ordered association list -/

/-- `m.get(k)` on a Python dict: the value at the first (unique) matching key. -/
def dictGet? {κ ν : Type} [DecidableEq κ] : List (κ × ν) → κ → Option ν
  | [], _ => none
  | (k', v) :: rest, k => if k' = k then some v else dictGet? rest k

/-- `m[k] = v` on a Python dict: replace in place if the key is present,
otherwise append at the end (insertion order is preserved). -/
def dictSet {κ ν : Type} [DecidableEq κ] : List (κ × ν) → κ → ν → List (κ × ν)
  | [], k, v => [(k, v)]
  | (k', v') :: rest, k, v =>
    if k' = k then (k, v) :: rest else (k', v') :: dictSet rest k v

/-! ## `os.path.splitext` (CPython `posixpath`/`genericpath` semantics)

For a plain file name (no directory separator): split at the last dot,
provided that dot is preceded, somewhere in the name, by a non-dot character;
otherwise (no dot, or only leading dots before it) the extension is empty. -/

/-- Index of the last occurrence of `'.'` in a character list, if any. -/
def lastDotIdx : List Char → Option Nat
  | [] => none
  | c :: rest =>
    match lastDotIdx rest with
    | some i => some (i + 1)
    | none => if c = '.' then some 0 else none

/-- `os.path.splitext` on the character list of a plain file name. -/
def splitextList (cs : List Char) : List Char × List Char :=
  match lastDotIdx cs with
  | none => (cs, [])
  | some i =>
    if 0 < i ∧ (cs.take i).any (fun c => c ≠ '.') then (cs.take i, cs.drop i)
    else (cs, [])

/-- `os.path.splitext` on a plain file name: `(root, extension)`. -/
def splitext (s : String) : String × String :=
  let p := splitextList s.toList
  (⟨p.1⟩, ⟨p.2⟩)

/-! ## DuplicateResolver (src/file_operations.py) -/

/-- Python `f"{number:03d}"`: decimal digits zero-padded to width at least 3. -/
def formatPad3 (n : Nat) : String :=
  let s := toString n
  if s.length < 3 then ⟨List.replicate (3 - s.length) '0'⟩ ++ s else s

/-- `DuplicateResolver._add_duplicate_suffix`: insert `_NNN` before the
extension. -/
def _add_duplicate_suffix (filename : String) (number : Nat) : String :=
  let p := splitext filename
  p.1 ++ "_" ++ formatPad3 number ++ p.2

/-- Python `str.startswith` on character lists: the second list is an initial
segment of the first. -/
def startsWithL : List Char → List Char → Bool
  | _, [] => true
  | [], _ :: _ => false
  | c :: cs, p :: ps => c = p && startsWithL cs ps

/-- Python `s.startswith(p)`. -/
def pyStartsWith (s p : String) : Bool := startsWithL s.toList p.toList

/-- The sentinel test of `resolve_duplicates`:
`new_name in ["No metadata"] or new_name.startswith("Error")`. -/
def isSentinel (name : String) : Bool :=
  name = "No metadata" || pyStartsWith name "Error"

/-- The loop body of `DuplicateResolver.resolve_duplicates`, with the
`name_counts` dict made an explicit accumulator. -/
def resolveDupAux : List (String × String) → List (String × Nat) → List (String × String)
  | [], _ => []
  | (original_name, new_name) :: rest, name_counts =>
    if isSentinel new_name then
      (original_name, new_name) :: resolveDupAux rest name_counts
    else
      match dictGet? name_counts new_name with
      | some n =>
        (original_name, _add_duplicate_suffix new_name (n + 1)) ::
          resolveDupAux rest (dictSet name_counts new_name (n + 1))
      | none =>
        (original_name, new_name) :: resolveDupAux rest (dictSet name_counts new_name 0)

/-- `DuplicateResolver.resolve_duplicates`: resolve duplicate desired names by
sequential `_001`, `_002`, … suffixes, passing the two sentinel classes
through untouched. -/
def resolve_duplicates (file_mappings : List (String × String)) : List (String × String) :=
  resolveDupAux file_mappings []

/-! ## ConflictResolver (src/file_operations.py)

The filesystem is abstracted by the existence check the code calls,
`os.path.exists(os.path.join(folder_path, name))`.  Two granularities are
embedded from the same source function:

* `resolve_file_conflicts` over a directory listing `dir : List String`
  (the check never raises; existence of `name` in the folder is `name ∈ dir`);
* `resolve_file_conflictsE` over a fallible check `String → Except ε Bool`,
  reflecting that `ConflictResolver` contains no `try`/`except`, so an
  exception raised by the existence check propagates (the repository's own
  test `test_conflict_resolution_os_error_handling` asserts exactly this).

The `while True` loop of `find_available_name` is given explicit fuel; `none`
marks fuel exhaustion (never reached under the hypotheses used below). -/

/-- The conflict candidate `f"{name}_c{counter}{ext}"` for a base name. -/
def mkConflictName (base : String) (counter : Nat) : String :=
  let p := splitext base
  p.1 ++ "_c" ++ toString counter ++ p.2

/-- The `while True` loop of `ConflictResolver.find_available_name`. -/
def findAvailLoop (pathEx : String → Bool) (name ext : String) : Nat → Nat → Option String
  | 0, _ => none
  | fuel + 1, counter =>
    let conflict_name := name ++ "_c" ++ toString counter ++ ext
    if pathEx conflict_name then findAvailLoop pathEx name ext fuel (counter + 1)
    else some conflict_name

/-- `ConflictResolver.find_available_name` over a directory listing. -/
def find_available_name (dir : List String) (base_name : String) (fuel : Nat) : Option String :=
  let p := splitext base_name
  findAvailLoop (fun n => decide (n ∈ dir)) p.1 p.2 fuel 1

/-- `ConflictResolver.resolve_file_conflicts` over a directory listing:
return the target name if free, else the first free `_cN` alternative. -/
def resolve_file_conflicts (dir : List String) (target_name : String) : Option String :=
  if target_name ∈ dir then find_available_name dir target_name (dir.length + 1)
  else some target_name

/-- The loop of `find_available_name` over a fallible existence check; an
exception from the check propagates out of the loop. -/
def findAvailLoopE {ε : Type} (check : String → Except ε Bool) (name ext : String) :
    Nat → Nat → Except ε (Option String)
  | 0, _ => .ok none
  | fuel + 1, counter =>
    let conflict_name := name ++ "_c" ++ toString counter ++ ext
    match check conflict_name with
    | .error e => .error e
    | .ok true => findAvailLoopE check name ext fuel (counter + 1)
    | .ok false => .ok (some conflict_name)

/-- `ConflictResolver.resolve_file_conflicts` over a fallible existence check:
`ConflictResolver` has no exception handler, so an error signalled by the
check propagates to the caller. -/
def resolve_file_conflictsE {ε : Type} (check : String → Except ε Bool)
    (target_name : String) (fuel : Nat) : Except ε (Option String) :=
  match check target_name with
  | .error e => .error e
  | .ok true =>
    let p := splitext target_name
    findAvailLoopE check p.1 p.2 fuel 1
  | .ok false => .ok (some target_name)

/-! ## ErrorRecovery (src/error_recovery.py) -/

/-- `RecoveryResult`: every resilience outcome as data, never an exception.
Defaults as in the Python dataclass. -/
structure RecoveryResult (ε α : Type) where
  success : Bool
  result : Option α := none
  error : Option ε := none
  attempts : Nat := 0
  recovery_method : Option String := none
deriving DecidableEq

/-- The retry loop of `ErrorRecovery.retry_with_backoff`.  The operation is a
function of the attempt index (outcome of each attempt); `remaining` is the
number of loop iterations left, `attempt` the 0-based index, `last` the last
error seen.  The backoff sleeps do not affect the returned value and are not
modelled. -/
def retryLoop {ε α : Type} (max_retries : Nat) (op : Nat → Except ε α) :
    Nat → Nat → Option ε → RecoveryResult ε α
  | 0, _, last =>
    { success := false, error := last, attempts := max_retries,
      recovery_method := some "retry_with_backoff" }
  | remaining + 1, attempt, _ =>
    match op attempt with
    | .ok r =>
      { success := true, result := some r, attempts := attempt + 1,
        recovery_method := some "retry_with_backoff" }
    | .error e => retryLoop max_retries op remaining (attempt + 1) (some e)

/-- `ErrorRecovery.retry_with_backoff`: attempt `op` up to `max_retries`
times; first success wins, exhaustion returns a failure result carrying the
last error and `attempts = max_retries`. -/
def retry_with_backoff {ε α : Type} (max_retries : Nat) (op : Nat → Except ε α) :
    RecoveryResult ε α :=
  retryLoop max_retries op max_retries 0 none

/-- `ErrorRecovery.handle_network_error`: fall back to cached data when
present (`cached_data is not None`), else degrade to an empty city string. -/
def handle_network_error {ε : Type} (_error : ε) (_context : String)
    (cached_data : Option String) : RecoveryResult ε String :=
  match cached_data with
  | some d =>
    { success := true, result := some d, attempts := 1,
      recovery_method := some "cached_fallback" }
  | none =>
    { success := true, result := some "", attempts := 1,
      recovery_method := some "graceful_degradation" }

/-! ## CityCache (src/city_cache.py) -/

/-- Round half to even, the rounding applied by Python float formatting
(`f"{x:.6f}"` rounds `x * 10^6` this way). -/
def rhe (q : ℚ) : ℤ :=
  let f := ⌊q⌋
  if q - f < 1 / 2 then f
  else if 1 / 2 < q - f then f + 1
  else if Even f then f else f + 1

/-- `CityCache._coordinate_key`: `f"{lat:.6f},{lon:.6f}"`, modelled as the
pair of micro-degree integers the formatted string displays. -/
def _coordinate_key (lat lon : ℚ) : ℤ × ℤ :=
  (rhe (lat * 1000000), rhe (lon * 1000000))

/-- `CacheEntry` dataclass: one cached coordinate-to-city mapping. -/
structure CacheEntry where
  latitude : ℚ
  longitude : ℚ
  city : String
  timestamp : Nat
  source : String
deriving DecidableEq

/-- `CityCache` state: backing file name, size bound, the entry dict and the
proximity tolerance (`_coordinate_tolerance`). -/
structure CityCache where
  cache_file : String
  max_entries : Nat
  cache : List ((ℤ × ℤ) × CacheEntry)
  _coordinate_tolerance : ℚ
deriving DecidableEq

/-- `CityCache.__init__`: empty dict, default tolerance `0.001`. -/
def mkCityCache (cache_file : String) (max_entries : Nat) : CityCache :=
  { cache_file := cache_file, max_entries := max_entries, cache := [],
    _coordinate_tolerance := 1 / 1000 }

/-- `CityCache._is_coordinate_close`: both coordinates within
`_coordinate_tolerance + 1e-10`. -/
def _is_coordinate_close (c : CityCache) (lat1 lon1 lat2 lon2 : ℚ) : Bool :=
  let tolerance := c._coordinate_tolerance + 1 / 10000000000
  decide (|lat1 - lat2| ≤ tolerance ∧ |lon1 - lon2| ≤ tolerance)

/-- `CityCache.get_city`: exact key hit first, then the first entry of the
dict (in dict order) within proximity tolerance. -/
def get_city (c : CityCache) (lat lon : ℚ) : Option String :=
  let key := _coordinate_key lat lon
  match dictGet? c.cache key with
  | some e => some e.city
  | none =>
    (c.cache.find? fun kv =>
      _is_coordinate_close c lat lon kv.2.latitude kv.2.longitude).map (·.2.city)

/-- One step of a stable descending insertion sort by timestamp. -/
def insertTsDesc (x : (ℤ × ℤ) × CacheEntry) :
    List ((ℤ × ℤ) × CacheEntry) → List ((ℤ × ℤ) × CacheEntry)
  | [] => [x]
  | y :: ys => if y.2.timestamp ≤ x.2.timestamp then x :: y :: ys else y :: insertTsDesc x ys

/-- Python `sorted(items, key=lambda x: x[1].timestamp, reverse=True)`:
stable sort, newest first, ties in original order. -/
def sortTsDesc : List ((ℤ × ℤ) × CacheEntry) → List ((ℤ × ℤ) × CacheEntry)
  | [] => []
  | x :: xs => insertTsDesc x (sortTsDesc xs)

/-- `CityCache._cleanup_cache`: if over the bound, keep only the
`max_entries` most recent entries (by timestamp, newest first). -/
def _cleanup_cache (c : CityCache) : CityCache :=
  if c.cache.length ≤ c.max_entries then c
  else { c with cache := (sortTsDesc c.cache).take c.max_entries }

/-- `CityCache.set_city` with the clock made explicit: insert or replace the
entry at the canonical key, then clean up if the bound is exceeded. -/
def set_city (c : CityCache) (now : Nat) (lat lon : ℚ) (city source : String) : CityCache :=
  let key := _coordinate_key lat lon
  let entry : CacheEntry :=
    { latitude := lat, longitude := lon, city := city, timestamp := now, source := source }
  let c1 := { c with cache := dictSet c.cache key entry }
  if c1.cache.length > c1.max_entries then _cleanup_cache c1 else c1

/-- The canonical key an insertion op `(now, lat, lon, city)` writes to. -/
def opKey (op : Nat × ℚ × ℚ × String) : ℤ × ℤ :=
  _coordinate_key op.2.1 op.2.2.1

/-- A sequence of `set_city` insertions (source `"api"`), oldest first. -/
def insertAll (c : CityCache) (ops : List (Nat × ℚ × ℚ × String)) : CityCache :=
  ops.foldl (fun acc op => set_city acc op.1 op.2.1 op.2.2.1 op.2.2.2 "api") c

/-- `CityCache.is_coordinate_cached`: query with an optional custom
tolerance, applied by temporarily mutating `_coordinate_tolerance` and
restoring it; returns the answer and the post-call cache state. -/
def is_coordinate_cached (c : CityCache) (lat lon : ℚ) (tolerance : Option ℚ) :
    Bool × CityCache :=
  match tolerance with
  | some t =>
    let old_tolerance := c._coordinate_tolerance
    let c1 := { c with _coordinate_tolerance := t }
    let result := (get_city c1 lat lon).isSome
    let c2 := { c1 with _coordinate_tolerance := old_tolerance }
    (result, c2)
  | none => ((get_city c lat lon).isSome, c)

/-! ### Persistence (`save_cache` / `load_cache`)

`save_cache` writes `{key: asdict(entry)}` as JSON (via a temp file and an
atomic rename); `load_cache` rebuilds the dict, skipping entries whose field
dict does not construct a `CacheEntry`.  The JSON text layer round-trips
Python floats and strings exactly, so it is modelled by the field dict
itself: a JSON value is a number or a string, an entry is serialised to the
ordered field dict `asdict` produces, and deserialisation is the keyword
construction `CacheEntry(**entry_data)` (required fields `latitude`,
`longitude`, `city`, `timestamp`; `source` defaults to `"api"`; any unknown
field name raises `TypeError`, caught and skipped by `load_cache`). -/

/-- A JSON scalar as it appears in the cache file. -/
inductive JVal where
  | jq : ℚ → JVal
  | js : String → JVal
  | jn : Nat → JVal
deriving DecidableEq

/-- `dataclasses.asdict` on a `CacheEntry`. -/
def asdictE (e : CacheEntry) : List (String × JVal) :=
  [("latitude", .jq e.latitude), ("longitude", .jq e.longitude),
   ("city", .js e.city), ("timestamp", .jn e.timestamp), ("source", .js e.source)]

/-- `CacheEntry(**entry_data)`: keyword construction from a field dict;
`none` models the `TypeError`/`ValueError` that `load_cache` catches. -/
def entryFromDict (d : List (String × JVal)) : Option CacheEntry :=
  if d.all fun kv => kv.1 = "latitude" ∨ kv.1 = "longitude" ∨ kv.1 = "city" ∨
      kv.1 = "timestamp" ∨ kv.1 = "source" then
    match dictGet? d "latitude", dictGet? d "longitude",
        dictGet? d "city", dictGet? d "timestamp" with
    | some (.jq la), some (.jq lo), some (.js ci), some (.jn ts) =>
      match dictGet? d "source" with
      | some (.js s) => some ⟨la, lo, ci, ts, s⟩
      | none => some ⟨la, lo, ci, ts, "api"⟩
      | some _ => none
    | _, _, _, _ => none
  else none

/-- `CityCache.save_cache`: the serialised content of the cache file. -/
def save_cacheD (c : CityCache) : List ((ℤ × ℤ) × List (String × JVal)) :=
  c.cache.map fun kv => (kv.1, asdictE kv.2)

/-- The dict-rebuilding loop of `CityCache.load_cache`: convert each entry
back, skipping invalid ones. -/
def load_cacheD (data : List ((ℤ × ℤ) × List (String × JVal))) :
    List ((ℤ × ℤ) × CacheEntry) :=
  data.foldl
    (fun acc kd =>
      match entryFromDict kd.2 with
      | some e => dictSet acc kd.1 e
      | none => acc)
    []

/-- `CityCache.load_cache` on an instance: replace its entry dict with the
one rebuilt from the file content. -/
def load_into (c : CityCache) (data : List ((ℤ × ℤ) × List (String × JVal))) : CityCache :=
  { c with cache := load_cacheD data }

/-! ## Helper lemmas -/

theorem dictGet?_dictSet_self {κ ν : Type} [DecidableEq κ]
    (m : List (κ × ν)) (k : κ) (v : ν) : dictGet? (dictSet m k v) k = some v := by
  induction m with
  | nil => simp [dictSet, dictGet?]
  | cons hd tl ih =>
    by_cases h : hd.1 = k
    · simp [dictSet, dictGet?, h]
    · simpa [dictSet, dictGet?, h] using ih

theorem dictGet?_dictSet_ne {κ ν : Type} [DecidableEq κ]
    (m : List (κ × ν)) (k k' : κ) (v : ν) (h : k ≠ k') :
    dictGet? (dictSet m k v) k' = dictGet? m k' := by
  induction m with
  | nil => simp [dictSet, dictGet?, h]
  | cons hd tl ih =>
    by_cases hk : hd.1 = k
    · simp [dictSet, dictGet?, hk, h]
    · simp only [dictSet, hk, if_false, dictGet?]
      by_cases hk' : hd.1 = k' <;> simp [hk', ih]

theorem mem_dictSet {κ ν : Type} [DecidableEq κ]
    (m : List (κ × ν)) (k : κ) (v : ν) (kv : κ × ν) (h : kv ∈ dictSet m k v) :
    kv = (k, v) ∨ kv ∈ m := by
  induction m with
  | nil => simpa [dictSet] using h
  | cons hd tl ih =>
    by_cases hk : hd.1 = k
    · simp only [dictSet, hk, if_true, List.mem_cons] at h
      rcases h with h | h
      · exact Or.inl h
      · exact Or.inr (List.mem_cons_of_mem _ h)
    · simp only [dictSet, hk, if_false, List.mem_cons] at h
      rcases h with h | h
      · exact Or.inr (h ▸ List.mem_cons_self _ _)
      · rcases ih h with h' | h'
        · exact Or.inl h'
        · exact Or.inr (List.mem_cons_of_mem _ h')

theorem self_mem_dictSet {κ ν : Type} [DecidableEq κ]
    (m : List (κ × ν)) (k : κ) (v : ν) : (k, v) ∈ dictSet m k v := by
  induction m with
  | nil => simp [dictSet]
  | cons hd tl ih =>
    by_cases hk : hd.1 = k
    · simp [dictSet, hk]
    · simp only [dictSet, hk, if_false, List.mem_cons]
      exact Or.inr ih

theorem length_dictSet_fresh {κ ν : Type} [DecidableEq κ]
    (m : List (κ × ν)) (k : κ) (v : ν) (h : dictGet? m k = none) :
    (dictSet m k v).length = m.length + 1 := by
  induction m with
  | nil => simp [dictSet]
  | cons hd tl ih =>
    by_cases hk : hd.1 = k
    · simp [dictGet?, hk] at h
    · simp only [dictGet?, hk, if_false] at h
      simp [dictSet, hk, ih h]

theorem dictSet_fresh_eq_append {κ ν : Type} [DecidableEq κ]
    (m : List (κ × ν)) (k : κ) (v : ν) (h : dictGet? m k = none) :
    dictSet m k v = m ++ [(k, v)] := by
  induction m with
  | nil => simp [dictSet]
  | cons hd tl ih =>
    by_cases hk : hd.1 = k
    · simp [dictGet?, hk] at h
    · simp only [dictGet?, hk, if_false] at h
      simp [dictSet, hk, ih h]

theorem rhe_intCast (n : ℤ) : rhe (n : ℚ) = n := by
  simp [rhe, Int.floor_intCast]

theorem rhe_natCast (n : ℕ) : rhe (n : ℚ) = n := by
  simpa using rhe_intCast (n : ℤ)

theorem rhe_zero : rhe 0 = 0 := by simpa using rhe_natCast 0

theorem rhe_one : rhe 1 = 1 := by simpa using rhe_natCast 1

theorem rhe_numeral (n : ℕ) :
    rhe (no_index (@OfNat.ofNat ℚ n Rat.instOfNat)) = (n : ℤ) :=
  rhe_natCast n

/-- Shifting by an even integer commutes with rounding half to even
(evenness of the parities of the two floor candidates is preserved). -/
theorem rhe_add_even_int (q : ℚ) (n : ℤ) (hn : Even n) : rhe (q + n) = rhe q + n := by
  have hfl : ⌊q + (n : ℚ)⌋ = ⌊q⌋ + n := Int.floor_add_int q n
  have hfr : q + (n : ℚ) - (⌊q⌋ + n : ℤ) = q - ⌊q⌋ := by push_cast; ring
  have hev : Even (⌊q⌋ + n) ↔ Even ⌊q⌋ := by
    constructor
    · intro h
      have := h.sub hn
      simpa using this
    · intro h
      exact h.add hn
  simp only [rhe, hfl, hfr]
  by_cases h1 : q - (⌊q⌋ : ℚ) < 1 / 2
  · rw [if_pos h1, if_pos h1]
  · by_cases h2 : (1 : ℚ) / 2 < q - ⌊q⌋
    · rw [if_neg h1, if_neg h1, if_pos h2, if_pos h2]; ring
    · rw [if_neg h1, if_neg h1, if_neg h2, if_neg h2]
      by_cases h3 : Even ⌊q⌋
      · rw [if_pos (hev.mpr h3), if_pos h3]
      · rw [if_neg (fun hc => h3 (hev.mp hc)), if_neg h3]; ring

/-! ## Fidelity checks of the embedding on concrete values -/

example : splitext "a.jpg" = ("a", ".jpg") := by decide
example : splitext "noext" = ("noext", "") := by decide
example : splitext ".bashrc" = (".bashrc", "") := by decide
example : splitext "a.b.jpg" = ("a.b", ".jpg") := by decide

example :
    resolve_duplicates [("1", "a.jpg"), ("2", "a.jpg"), ("3", "a.jpg"), ("4", "b.jpg")] =
      [("1", "a.jpg"), ("2", "a_001.jpg"), ("3", "a_002.jpg"), ("4", "b.jpg")] := by decide

/-! ## Retry/fallback executor: claims C2 and C3 -/

theorem retryLoop_exhaust {ε α : Type} (m : ℕ) (op : ℕ → Except ε α) (err : ℕ → ε)
    (hop : ∀ i, op i = .error (err i)) :
    ∀ (r a : ℕ) (last : Option ε), 1 ≤ r →
      retryLoop m op r a last =
        { success := false, error := some (err (a + r - 1)), attempts := m,
          recovery_method := some "retry_with_backoff" } := by
  intro r
  induction r with
  | zero => intro a last h; omega
  | succ r ih =>
    intro a last _
    simp only [retryLoop, hop a]
    rcases Nat.eq_zero_or_pos r with h0 | hpos
    · subst h0
      simp [retryLoop]
    · rw [ih (a + 1) (some (err a)) hpos]
      have harg : a + 1 + r - 1 = a + (r + 1) - 1 := by omega
      rw [harg]

theorem retryLoop_success {ε α : Type} (m : ℕ) (op : ℕ → Except ε α) (err : ℕ → ε)
    (j : ℕ) (v : α) (hfail : ∀ i, i < j → op i = .error (err i)) (hok : op j = .ok v) :
    ∀ (r a : ℕ) (last : Option ε), a + r = m → a ≤ j → j < m →
      retryLoop m op r a last =
        { success := true, result := some v, attempts := j + 1,
          recovery_method := some "retry_with_backoff" } := by
  intro r
  induction r with
  | zero => intro a last hsum ha hj; omega
  | succ r ih =>
    intro a last hsum ha hj
    by_cases haj : a = j
    · subst haj
      simp [retryLoop, hok]
    · have haj' : a < j := lt_of_le_of_ne ha haj
      simp only [retryLoop, hfail a haj']
      exact ih (a + 1) (some (err a)) (by omega) (by omega) hj

/-- C3: an operation that fails (raises) on every attempt makes
`retry_with_backoff` return — without raising — a failure `RecoveryResult`
with `attempts = max_retries` carrying the last error, while an operation
that first succeeds at 1-based attempt `j + 1 ≤ max_retries` (all earlier
attempts failing) yields an immediate success result with
`attempts = j + 1`.  The embedding is a total function, so no exception can
escape. -/
theorem retry_with_backoff_spec {ε α : Type} (m j : ℕ) (op : ℕ → Except ε α)
    (err : ℕ → ε) (v : α) :
    ((∀ i, op i = .error (err i)) → 1 ≤ m →
      retry_with_backoff m op =
        { success := false, error := some (err (m - 1)), attempts := m,
          recovery_method := some "retry_with_backoff" })
  ∧ ((∀ i, i < j → op i = .error (err i)) → op j = .ok v → j < m →
      retry_with_backoff m op =
        { success := true, result := some v, attempts := j + 1,
          recovery_method := some "retry_with_backoff" }) := by
  constructor
  · intro hop hm
    have h := retryLoop_exhaust m op err hop m 0 none hm
    simpa [retry_with_backoff] using h
  · intro hfail hok hj
    have h := retryLoop_success m op err j v hfail hok m 0 none (by omega) (by omega) hj
    simpa [retry_with_backoff] using h

/-- Concrete instance of C3 at the default `max_retries = 3`: an
always-failing operation exhausts all three attempts; an operation failing
twice then succeeding returns success with `attempts = 3`. -/
theorem retry_with_backoff_spec_witness :
    retry_with_backoff 3 (fun _ => (Except.error "network down" : Except String String)) =
      { success := false, error := some "network down", attempts := 3,
        recovery_method := some "retry_with_backoff" }
  ∧ retry_with_backoff 3
      (fun i => if i < 2 then (Except.error "network down" : Except String String)
        else .ok "Paris") =
      { success := true, result := some "Paris", attempts := 3,
        recovery_method := some "retry_with_backoff" } :=
  ⟨(retry_with_backoff_spec 3 0 (fun _ => Except.error "network down")
      (fun _ => "network down") "unused").1 (fun _ => rfl) (by omega),
   (retry_with_backoff_spec 3 2
      (fun i => if i < 2 then (Except.error "network down" : Except String String)
        else .ok "Paris")
      (fun _ => "network down") "Paris").2
      (fun i hi => by simp [hi]) (by simp) (by omega)⟩

/-- C2: `handle_network_error` never raises; it always returns a result with
`success = true`: the cached value with method `"cached_fallback"` when a
cached value is present, else the empty string with method
`"graceful_degradation"`.  The embedding is a total function, so no
exception can escape. -/
theorem handle_network_error_spec {ε : Type} (error : ε) (context : String)
    (cached_data : Option String) :
    (handle_network_error error context cached_data).success = true
  ∧ (∀ d, cached_data = some d →
      handle_network_error error context cached_data =
        { success := true, result := some d, attempts := 1,
          recovery_method := some "cached_fallback" })
  ∧ (cached_data = none →
      handle_network_error error context cached_data =
        { success := true, result := some "", attempts := 1,
          recovery_method := some "graceful_degradation" }) := by
  cases cached_data <;> simp [handle_network_error]

/-- Concrete instance of C2: one call with a cached value, one without. -/
theorem handle_network_error_spec_witness :
    handle_network_error "timeout" "reverse geocoding" (some "Paris") =
      { success := true, result := some "Paris", attempts := 1,
        recovery_method := some "cached_fallback" }
  ∧ handle_network_error "timeout" "reverse geocoding" (none : Option String) =
      { success := true, result := some "", attempts := 1,
        recovery_method := some "graceful_degradation" } :=
  ⟨(handle_network_error_spec "timeout" "reverse geocoding" (some "Paris")).2.1 "Paris" rfl,
   (handle_network_error_spec "timeout" "reverse geocoding" none).2.2 rfl⟩

/-! ## Cache query frame property: claim C10 -/

/-- C10: `is_coordinate_cached` leaves the cache state unchanged — the
temporarily-mutated `_coordinate_tolerance` is always restored (and the
entry dict is untouched) — and its boolean answer is exactly a `get_city`
query under the effective tolerance (the custom one if supplied, the
configured one otherwise). -/
theorem is_coordinate_cached_frame (c : CityCache) (lat lon : ℚ) (tolerance : Option ℚ) :
    (is_coordinate_cached c lat lon tolerance).2 = c
  ∧ (is_coordinate_cached c lat lon tolerance).1 =
      (get_city { c with _coordinate_tolerance := tolerance.getD c._coordinate_tolerance }
        lat lon).isSome := by
  cases tolerance <;> exact ⟨rfl, rfl⟩

/-! ## Name resolver: claims C8 and C1 -/

theorem resolveDupAux_of_fresh (l : List (String × String)) :
    ∀ counts : List (String × Nat),
      (∀ p ∈ l, isSentinel p.2 = false → dictGet? counts p.2 = none) →
      ((l.map Prod.snd).filter (fun n => !isSentinel n)).Nodup →
      resolveDupAux l counts = l := by
  induction l with
  | nil => intro counts _ _; rfl
  | cons hd tl ih =>
    intro counts hfresh hnd
    obtain ⟨o, name⟩ := hd
    by_cases hs : isSentinel name
    · simp only [resolveDupAux, hs, if_true, List.cons.injEq, true_and]
      refine ih counts (fun p hp hps => hfresh p (List.mem_cons_of_mem _ hp) hps) ?_
      simpa [List.filter_cons, hs] using hnd
    · have hs' : isSentinel name = false := by simpa using hs
      have hget : dictGet? counts name = none :=
        hfresh (o, name) (List.mem_cons_self _ _) hs'
      have hnd' : name ∉ (tl.map Prod.snd).filter (fun n => !isSentinel n) ∧
          ((tl.map Prod.snd).filter (fun n => !isSentinel n)).Nodup := by
        have h := hnd
        simp only [List.map_cons, List.filter_cons, hs', Bool.not_false, if_true,
          List.nodup_cons] at h
        exact h
      have hstep : resolveDupAux ((o, name) :: tl) counts =
          (o, name) :: resolveDupAux tl (dictSet counts name 0) := by
        simp [resolveDupAux, hs', hget]
      rw [hstep]
      rw [ih (dictSet counts name 0) ?_ hnd'.2]
      intro p hp hps
      have hpn : p.2 ≠ name := by
        intro heq
        exact hnd'.1 (heq ▸ (List.mem_filter.mpr
          ⟨List.mem_map_of_mem Prod.snd hp, by simp [hps]⟩))
      rw [dictGet?_dictSet_ne counts name p.2 0 (fun h => hpn h.symm)]
      exact hfresh p (List.mem_cons_of_mem _ hp) hps

/-- C8: on an input whose non-sentinel desired names are already pairwise
distinct, `resolve_duplicates` returns the list unchanged (same pairs, same
order); determinism on equal inputs is inherent, the embedding being a pure
function. -/
theorem resolve_duplicates_idempotent (l : List (String × String))
    (h : ((l.map Prod.snd).filter (fun n => !isSentinel n)).Nodup) :
    resolve_duplicates l = l :=
  resolveDupAux_of_fresh l [] (fun _ _ _ => rfl) h

/-- Concrete instance of C8: an already-unique batch, including repeated
sentinel names, passes through unchanged. -/
theorem resolve_duplicates_idempotent_witness :
    resolve_duplicates
      [("f1", "x.jpg"), ("f2", "No metadata"), ("f3", "y.jpg"),
       ("f4", "No metadata"), ("f5", "Error reading file")] =
      [("f1", "x.jpg"), ("f2", "No metadata"), ("f3", "y.jpg"),
       ("f4", "No metadata"), ("f5", "Error reading file")] :=
  resolve_duplicates_idempotent
    [("f1", "x.jpg"), ("f2", "No metadata"), ("f3", "y.jpg"),
     ("f4", "No metadata"), ("f5", "Error reading file")] (by decide)

/-- C1 fails on the code: when a desired name collides with a name the
suffixing scheme itself generates, `resolve_duplicates` emits duplicate
final names.  On `[a.jpg, a_001.jpg, a.jpg]` the third record is renamed to
`a_001.jpg`, equal to the second record's untouched name: the non-sentinel
final names are not pairwise distinct, and only 2 of the 3 non-sentinel
records receive distinct names — contradicting both the code's own
docstring ("tuples with unique names") and the spec's uniqueness invariant. -/
theorem resolve_duplicates_collision :
    resolve_duplicates [("f1", "a.jpg"), ("f2", "a_001.jpg"), ("f3", "a.jpg")] =
      [("f1", "a.jpg"), ("f2", "a_001.jpg"), ("f3", "a_001.jpg")]
  ∧ ¬ (((resolve_duplicates [("f1", "a.jpg"), ("f2", "a_001.jpg"), ("f3", "a.jpg")]).map
        Prod.snd).filter (fun n => !isSentinel n)).Nodup
  ∧ (((resolve_duplicates [("f1", "a.jpg"), ("f2", "a_001.jpg"), ("f3", "a.jpg")]).map
        Prod.snd).filter (fun n => !isSentinel n)).dedup.length = 2 :=
  ⟨by decide, by decide, by decide⟩

/-! ## Conflict resolver: claims C6 and C7 -/

theorem findAvailLoop_least (pathEx : String → Bool) (name ext : String) (n : Nat) :
    ∀ (fuel c : Nat), c ≤ n → n - c < fuel →
      (∀ m, c ≤ m → m < n → pathEx (name ++ "_c" ++ toString m ++ ext) = true) →
      pathEx (name ++ "_c" ++ toString n ++ ext) = false →
      findAvailLoop pathEx name ext fuel c = some (name ++ "_c" ++ toString n ++ ext) := by
  intro fuel
  induction fuel with
  | zero => intro c hc hf _ _; omega
  | succ fuel ih =>
    intro c hc hf htaken hfree
    by_cases hcn : c = n
    · subst hcn
      simp [findAvailLoop, hfree]
    · have hlt : c < n := lt_of_le_of_ne hc hcn
      simp only [findAvailLoop, htaken c le_rfl hlt, if_true]
      exact ih (c + 1) (by omega) (by omega) (fun m hm hmn => htaken m (by omega) hmn) hfree

/-- C6: `resolve_file_conflicts` returns the desired name unchanged when no
file with that name exists; otherwise it returns the `_cN` alternative for
the lowest `N ≥ 1` whose name is free (searching from `_c1`, first gap
wins), as long as that `N` is within the fuel bound `|dir| + 1`; in
particular the spec's two concrete scenarios produce `x_c3.jpg` and
`x_c2.jpg`. -/
theorem resolve_file_conflicts_lowest (dir : List String) (target : String) (n : Nat) :
    (target ∉ dir → resolve_file_conflicts dir target = some target)
  ∧ (target ∈ dir → 1 ≤ n → n ≤ dir.length + 1 →
      mkConflictName target n ∉ dir →
      (∀ m, m < n → 1 ≤ m → mkConflictName target m ∈ dir) →
      resolve_file_conflicts dir target = some (mkConflictName target n))
  ∧ resolve_file_conflicts ["x.jpg", "x_c1.jpg", "x_c2.jpg"] "x.jpg" = some "x_c3.jpg"
  ∧ resolve_file_conflicts ["x.jpg", "x_c1.jpg", "x_c3.jpg", "x_c5.jpg"] "x.jpg" =
      some "x_c2.jpg" := by
  refine ⟨?_, ?_, by decide, by decide⟩
  · intro h
    simp [resolve_file_conflicts, h]
  · intro hmem h1 hlen hfree htaken
    have hstep : resolve_file_conflicts dir target =
        find_available_name dir target (dir.length + 1) := by
      simp [resolve_file_conflicts, hmem]
    rw [hstep]
    exact findAvailLoop_least (fun s => decide (s ∈ dir)) (splitext target).1
      (splitext target).2 n (dir.length + 1) 1 h1 (by omega)
      (fun m hm hmn => decide_eq_true (htaken m hmn hm))
      (decide_eq_false hfree)

/-- Concrete instance of C6: a free target passes through; for an occupied
target with `_c1` taken and `_c2` free, `N = 2` is chosen. -/
theorem resolve_file_conflicts_lowest_witness :
    resolve_file_conflicts ["a.jpg"] "new.jpg" = some "new.jpg"
  ∧ resolve_file_conflicts ["x.jpg", "x_c1.jpg"] "x.jpg" = some (mkConflictName "x.jpg" 2) :=
  ⟨(resolve_file_conflicts_lowest ["a.jpg"] "new.jpg" 1).1 (by decide),
   (resolve_file_conflicts_lowest ["x.jpg", "x_c1.jpg"] "x.jpg" 2).2.1
     (by decide) (by omega) (by decide) (by decide) (by decide)⟩

/-- C7: `ConflictResolver` contains no exception handler, so an error
signalled by the filesystem-existence check propagates out of
`resolve_file_conflicts` — whether it is raised on the initial check of the
target name or on a check of a `_cN` candidate inside
`find_available_name` — rather than being swallowed or converted into a
returned name. -/
theorem resolve_file_conflictsE_propagates {ε : Type} (check : String → Except ε Bool)
    (target : String) (fuel : Nat) (e : ε) :
    (check target = .error e → resolve_file_conflictsE check target fuel = .error e)
  ∧ (check target = .ok true → 1 ≤ fuel →
      check (mkConflictName target 1) = .error e →
      resolve_file_conflictsE check target fuel = .error e) := by
  constructor
  · intro h
    simp [resolve_file_conflictsE, h]
  · intro h hf he
    obtain ⟨fuel, rfl⟩ : ∃ f, fuel = f + 1 := ⟨fuel - 1, by omega⟩
    have he' : check ((splitext target).1 ++ "_c" ++ toString 1 ++ (splitext target).2) =
        Except.error e := he
    simp [resolve_file_conflictsE, h, findAvailLoopE, he']

/-- Concrete instance of C7: a check that raises on the target, and one that
raises on the first conflict candidate, both propagate their error. -/
theorem resolve_file_conflictsE_propagates_witness :
    resolve_file_conflictsE (fun _ => (Except.error "permission denied" : Except String Bool))
      "x.jpg" 5 = .error "permission denied"
  ∧ resolve_file_conflictsE
      (fun s => if s = "x.jpg" then (Except.ok true : Except String Bool)
        else .error "permission denied") "x.jpg" 5 = .error "permission denied" :=
  ⟨(resolve_file_conflictsE_propagates (fun _ => Except.error "permission denied")
      "x.jpg" 5 "permission denied").1 rfl,
   (resolve_file_conflictsE_propagates
      (fun s => if s = "x.jpg" then (Except.ok true : Except String Bool)
        else .error "permission denied") "x.jpg" 5 "permission denied").2
      (by simp) (by omega)
      (by rw [show mkConflictName "x.jpg" 1 = "x_c1.jpg" by decide]
          rw [if_neg (by decide)])⟩

/-! ## Proximity cache eviction: claim C4 -/

theorem dictGet?_eq_none_iff {κ ν : Type} [DecidableEq κ] (m : List (κ × ν)) (k : κ) :
    dictGet? m k = none ↔ k ∉ m.map Prod.fst := by
  induction m with
  | nil => simp [dictGet?]
  | cons hd tl ih =>
    by_cases h : hd.1 = k
    · simp [dictGet?, h]
    · rw [List.map_cons, List.mem_cons]
      simp only [dictGet?, h, if_false]
      rw [ih]
      constructor
      · intro hn hc
        rcases hc with hc | hc
        · exact h hc.symm
        · exact hn hc
      · intro hn hc
        exact hn (Or.inr hc)

theorem length_insertTsDesc (x : (ℤ × ℤ) × CacheEntry) (l : List ((ℤ × ℤ) × CacheEntry)) :
    (insertTsDesc x l).length = l.length + 1 := by
  induction l with
  | nil => rfl
  | cons y ys ih =>
    by_cases h : y.2.timestamp ≤ x.2.timestamp <;> simp [insertTsDesc, h, ih]

theorem length_sortTsDesc (l : List ((ℤ × ℤ) × CacheEntry)) :
    (sortTsDesc l).length = l.length := by
  induction l with
  | nil => rfl
  | cons x xs ih => simp [sortTsDesc, length_insertTsDesc, ih]

theorem mem_insertTsDesc (x y : (ℤ × ℤ) × CacheEntry) (l : List ((ℤ × ℤ) × CacheEntry)) :
    y ∈ insertTsDesc x l ↔ y = x ∨ y ∈ l := by
  induction l with
  | nil => simp [insertTsDesc]
  | cons z zs ih =>
    by_cases h : z.2.timestamp ≤ x.2.timestamp
    · simp [insertTsDesc, h]
    · simp [insertTsDesc, h, ih]
      tauto

theorem mem_sortTsDesc (y : (ℤ × ℤ) × CacheEntry) (l : List ((ℤ × ℤ) × CacheEntry)) :
    y ∈ sortTsDesc l ↔ y ∈ l := by
  induction l with
  | nil => simp [sortTsDesc]
  | cons z zs ih => simp [sortTsDesc, mem_insertTsDesc, ih]

/-- A strictly-newest element comes out at the head of the stable descending
sort, whatever its position in the input. -/
theorem sortTsDesc_head (l : List ((ℤ × ℤ) × CacheEntry)) (x : (ℤ × ℤ) × CacheEntry)
    (hx : x ∈ l) (hmax : ∀ y ∈ l, y = x ∨ y.2.timestamp < x.2.timestamp) :
    ∃ t, sortTsDesc l = x :: t := by
  induction l with
  | nil => cases hx
  | cons z zs ih =>
    rcases List.mem_cons.mp hx with rfl | hxz
    · cases hs : sortTsDesc zs with
      | nil => exact ⟨[], by simp [sortTsDesc, hs, insertTsDesc]⟩
      | cons y ys =>
        have hy : y ∈ zs := (mem_sortTsDesc y zs).mp (hs ▸ List.mem_cons_self y ys)
        have hle : y.2.timestamp ≤ x.2.timestamp := by
          rcases hmax y (List.mem_cons_of_mem _ hy) with rfl | h
          · exact le_rfl
          · exact le_of_lt h
        exact ⟨y :: ys, by simp [sortTsDesc, hs, insertTsDesc, hle]⟩
    · obtain ⟨t, ht⟩ := ih hxz (fun y hy => hmax y (List.mem_cons_of_mem _ hy))
      rcases hmax z (List.mem_cons_self z zs) with rfl | hlt
      · exact ⟨z :: t, by simp [sortTsDesc, ht, insertTsDesc]⟩
      · exact ⟨insertTsDesc z t, by simp [sortTsDesc, ht, insertTsDesc, not_le.mpr hlt]⟩

theorem set_city_max_entries (c : CityCache) (now : Nat) (lat lon : ℚ) (city src : String) :
    (set_city c now lat lon city src).max_entries = c.max_entries := by
  simp only [set_city, _cleanup_cache]
  split
  · split <;> rfl
  · rfl

/-- Case analysis for the cache contents after `set_city`: the inserted dict
if within bound, else its newest-first prefix of length `max_entries`. -/
theorem set_city_cache_eq (c : CityCache) (now : Nat) (lat lon : ℚ) (city src : String) :
    (set_city c now lat lon city src).cache =
      if (dictSet c.cache (_coordinate_key lat lon)
            ⟨lat, lon, city, now, src⟩).length ≤ c.max_entries
      then dictSet c.cache (_coordinate_key lat lon) ⟨lat, lon, city, now, src⟩
      else (sortTsDesc (dictSet c.cache (_coordinate_key lat lon)
        ⟨lat, lon, city, now, src⟩)).take c.max_entries := by
  show (if (dictSet c.cache (_coordinate_key lat lon)
          ⟨lat, lon, city, now, src⟩).length > c.max_entries
      then _cleanup_cache { c with cache := (dictSet c.cache (_coordinate_key lat lon)
        ⟨lat, lon, city, now, src⟩) }
      else { c with cache := (dictSet c.cache (_coordinate_key lat lon)
        ⟨lat, lon, city, now, src⟩) }).cache = _
  by_cases h : (dictSet c.cache (_coordinate_key lat lon)
      ⟨lat, lon, city, now, src⟩).length ≤ c.max_entries
  · rw [if_neg (not_lt.mpr h), if_pos h]
  · rw [if_pos (not_le.mp h), if_neg h]
    show (if (dictSet c.cache (_coordinate_key lat lon)
            ⟨lat, lon, city, now, src⟩).length ≤ c.max_entries
        then { c with cache := (dictSet c.cache (_coordinate_key lat lon)
          ⟨lat, lon, city, now, src⟩) }
        else { c with cache := ((sortTsDesc (dictSet c.cache (_coordinate_key lat lon)
          ⟨lat, lon, city, now, src⟩)).take c.max_entries) }).cache = _
    rw [if_neg h]

theorem set_city_length_le (c : CityCache) (now : Nat) (lat lon : ℚ) (city src : String) :
    (set_city c now lat lon city src).cache.length ≤ c.max_entries := by
  rw [set_city_cache_eq]
  by_cases h : (dictSet c.cache (_coordinate_key lat lon)
      ⟨lat, lon, city, now, src⟩).length ≤ c.max_entries
  · rw [if_pos h]
    exact h
  · rw [if_neg h]
    simp only [List.length_take, length_sortTsDesc]
    omega

theorem set_city_length_fresh (c : CityCache) (now : Nat) (lat lon : ℚ) (city src : String)
    (hfresh : dictGet? c.cache (_coordinate_key lat lon) = none) :
    (set_city c now lat lon city src).cache.length =
      min (c.cache.length + 1) c.max_entries := by
  have hlen : (dictSet c.cache (_coordinate_key lat lon)
      ⟨lat, lon, city, now, src⟩).length = c.cache.length + 1 :=
    length_dictSet_fresh c.cache _ _ hfresh
  rw [set_city_cache_eq]
  by_cases h : (dictSet c.cache (_coordinate_key lat lon)
      ⟨lat, lon, city, now, src⟩).length ≤ c.max_entries
  · rw [if_pos h, hlen]
    omega
  · rw [if_neg h]
    simp only [List.length_take, length_sortTsDesc, hlen]
    omega

theorem mem_set_city (c : CityCache) (now : Nat) (lat lon : ℚ) (city src : String)
    (kv : (ℤ × ℤ) × CacheEntry) (h : kv ∈ (set_city c now lat lon city src).cache) :
    kv = (_coordinate_key lat lon, ⟨lat, lon, city, now, src⟩) ∨ kv ∈ c.cache := by
  rw [set_city_cache_eq] at h
  have hsub : kv ∈ dictSet c.cache (_coordinate_key lat lon) ⟨lat, lon, city, now, src⟩ := by
    by_cases hc : (dictSet c.cache (_coordinate_key lat lon)
        ⟨lat, lon, city, now, src⟩).length ≤ c.max_entries
    · rwa [if_pos hc] at h
    · rw [if_neg hc] at h
      exact (mem_sortTsDesc kv _).mp (List.take_subset _ _ h)
  exact mem_dictSet c.cache _ _ kv hsub

theorem set_city_newest_present (c : CityCache) (now : Nat) (lat lon : ℚ) (city src : String)
    (hm : 1 ≤ c.max_entries) (hts : ∀ kv ∈ c.cache, kv.2.timestamp < now) :
    dictGet? (set_city c now lat lon city src).cache (_coordinate_key lat lon) =
      some ⟨lat, lon, city, now, src⟩ := by
  have hself : (_coordinate_key lat lon, (⟨lat, lon, city, now, src⟩ : CacheEntry)) ∈
      dictSet c.cache (_coordinate_key lat lon) ⟨lat, lon, city, now, src⟩ :=
    self_mem_dictSet c.cache _ _
  have hmax : ∀ y ∈ dictSet c.cache (_coordinate_key lat lon) ⟨lat, lon, city, now, src⟩,
      y = (_coordinate_key lat lon, (⟨lat, lon, city, now, src⟩ : CacheEntry)) ∨
        y.2.timestamp < now := by
    intro y hy
    rcases mem_dictSet c.cache _ _ y hy with h | h
    · exact Or.inl h
    · exact Or.inr (hts y h)
  rw [set_city_cache_eq]
  by_cases hc : (dictSet c.cache (_coordinate_key lat lon)
      ⟨lat, lon, city, now, src⟩).length ≤ c.max_entries
  · rw [if_pos hc]
    exact dictGet?_dictSet_self c.cache _ _
  · rw [if_neg hc]
    obtain ⟨t, ht⟩ := sortTsDesc_head _ _ hself hmax
    rw [ht]
    obtain ⟨m, hm2⟩ : ∃ m, c.max_entries = m + 1 := ⟨c.max_entries - 1, by omega⟩
    rw [hm2, List.take_succ_cons]
    simp [dictGet?]

theorem insertAll_length (ops : List (Nat × ℚ × ℚ × String)) :
    ∀ c : CityCache, c.cache.length ≤ c.max_entries →
      (ops.map opKey).Nodup →
      (∀ op ∈ ops, dictGet? c.cache (opKey op) = none) →
      (insertAll c ops).cache.length = min (c.cache.length + ops.length) c.max_entries := by
  induction ops with
  | nil =>
    intro c hle _ _
    simp only [insertAll, List.foldl_nil, List.length_nil, Nat.add_zero]
    omega
  | cons op ops ih =>
    intro c hle hnd hfresh
    have hstep : insertAll c (op :: ops) =
        insertAll (set_city c op.1 op.2.1 op.2.2.1 op.2.2.2 "api") ops := rfl
    set c' := set_city c op.1 op.2.1 op.2.2.1 op.2.2.2 "api" with hc'
    have hmax' : c'.max_entries = c.max_entries := set_city_max_entries c _ _ _ _ _
    have hlen' : c'.cache.length = min (c.cache.length + 1) c.max_entries :=
      set_city_length_fresh c _ _ _ _ _ (hfresh op (List.mem_cons_self _ _))
    have hle' : c'.cache.length ≤ c'.max_entries := by
      rw [hmax']
      exact set_city_length_le c _ _ _ _ _
    have hnd' : (ops.map opKey).Nodup := by
      rw [List.map_cons, List.nodup_cons] at hnd
      exact hnd.2
    have hnotin : opKey op ∉ ops.map opKey := by
      rw [List.map_cons, List.nodup_cons] at hnd
      exact hnd.1
    have hfresh' : ∀ op' ∈ ops, dictGet? c'.cache (opKey op') = none := by
      intro op' hop'
      rw [dictGet?_eq_none_iff]
      intro hmem
      obtain ⟨kv, hkv, hfst⟩ := List.mem_map.mp hmem
      rcases mem_set_city c op.1 op.2.1 op.2.2.1 op.2.2.2 "api" kv hkv with h | h
      · have : opKey op' = opKey op := by rw [← hfst, h]; rfl
        exact hnotin (this ▸ List.mem_map_of_mem opKey hop')
      · have : opKey op' ∈ c.cache.map Prod.fst := hfst ▸ List.mem_map_of_mem Prod.fst h
        exact (dictGet?_eq_none_iff c.cache (opKey op')).mp (hfresh op' (List.mem_cons_of_mem _ hop')) this
    rw [hstep, ih c' hle' hnd' hfresh', hlen', hmax']
    simp only [List.length_cons]
    omega

/-- C4 as stated is false on the code: the newly inserted entry can be
evicted by its own insertion.  With `max_entries = 1`, inserting a second
distinct coordinate with the same timestamp as the first (two calls within
one clock tick) evicts the new entry, because Python's stable descending
sort leaves the tied older entry first and truncation keeps only it; with
`max_entries = 0` even a single insertion evicts itself.  (The repository's
own tests sleep between insertions "to ensure different timestamps".) -/
theorem set_city_newest_evicted_cex :
    dictGet? (set_city (set_city (mkCityCache "city_cache.json" 1) 5 1 1 "A" "api")
        5 2 2 "B" "api").cache (_coordinate_key 2 2) = none
  ∧ (set_city (mkCityCache "city_cache.json" 0) 1 1 1 "A" "api").cache = [] := by
  constructor
  · norm_num [set_city, mkCityCache, dictSet, _cleanup_cache, sortTsDesc, insertTsDesc,
      _coordinate_key, dictGet?, rhe_one, rhe_numeral]
  · norm_num [set_city, mkCityCache, dictSet, _cleanup_cache, sortTsDesc, insertTsDesc,
      _coordinate_key, rhe_one, rhe_numeral]

/-- C4 (amended): after every `set_city` the cache holds at most
`max_entries` entries, and inserting `max_entries + k` coordinates with
pairwise distinct canonical keys into a fresh cache leaves exactly
`max_entries` entries; the just-inserted coordinate's entry is still present
provided `max_entries ≥ 1` and the insertion's timestamp is strictly newer
than every timestamp already cached (the counterexample shows the claim
fails without these two provisos). -/
theorem set_city_bound_and_newest (c : CityCache) (now : Nat) (lat lon : ℚ)
    (city src f : String) (m : Nat) (ops : List (Nat × ℚ × ℚ × String)) :
    ((set_city c now lat lon city src).cache.length ≤ c.max_entries)
  ∧ ((ops.map opKey).Nodup → m + 1 ≤ ops.length →
      (insertAll (mkCityCache f m) ops).cache.length = m)
  ∧ (1 ≤ c.max_entries → (∀ kv ∈ c.cache, kv.2.timestamp < now) →
      dictGet? (set_city c now lat lon city src).cache (_coordinate_key lat lon) =
        some ⟨lat, lon, city, now, src⟩) := by
  refine ⟨set_city_length_le c now lat lon city src, ?_, ?_⟩
  · intro hnd hlen
    have h := insertAll_length ops (mkCityCache f m) (by simp [mkCityCache]) hnd
      (fun op _ => rfl)
    rw [h]
    simp only [mkCityCache, List.length_nil, Nat.zero_add]
    omega
  · intro hm hts
    exact set_city_newest_present c now lat lon city src hm hts

/-- Concrete instance of C4 (amended): a cache of bound 2 holding one entry
stays within bound after an insertion; two distinct-key insertions into a
fresh bound-1 cache leave exactly 1 entry; a strictly-newer insertion into a
non-full cache is present afterwards under its canonical key. -/
theorem set_city_bound_and_newest_witness :
    ((set_city ⟨"city_cache.json", 2, [((0, 0), ⟨0, 0, "A", 3, "api"⟩)], 1 / 1000⟩
        7 1 1 "B" "api").cache.length ≤ 2)
  ∧ ((insertAll (mkCityCache "city_cache.json" 1)
        [(1, 1, 1, "A"), (2, 2, 2, "B")]).cache.length = 1)
  ∧ (dictGet? (set_city ⟨"city_cache.json", 2, [((0, 0), ⟨0, 0, "A", 3, "api"⟩)], 1 / 1000⟩
        7 1 1 "B" "api").cache (_coordinate_key 1 1) = some ⟨1, 1, "B", 7, "api"⟩) :=
  ⟨(set_city_bound_and_newest ⟨"city_cache.json", 2, [((0, 0), ⟨0, 0, "A", 3, "api"⟩)], 1 / 1000⟩
      7 1 1 "B" "api" "city_cache.json" 1 []).1,
   (set_city_bound_and_newest (mkCityCache "x" 0) 0 0 0 "x" "x" "city_cache.json" 1
      [(1, 1, 1, "A"), (2, 2, 2, "B")]).2.1
      (by norm_num [opKey, _coordinate_key, rhe_one, rhe_numeral]) (by norm_num),
   (set_city_bound_and_newest ⟨"city_cache.json", 2, [((0, 0), ⟨0, 0, "A", 3, "api"⟩)], 1 / 1000⟩
      7 1 1 "B" "api" "city_cache.json" 1 []).2.2 (by norm_num)
      (by intro kv hkv
          rw [List.mem_singleton] at hkv
          subst hkv
          norm_num)⟩

/-! ## Cache persistence round-trip: claim C5 -/

theorem entryFromDict_asdictE (e : CacheEntry) : entryFromDict (asdictE e) = some e := by
  rfl

theorem load_of_save (c : CityCache) (hnd : (c.cache.map Prod.fst).Nodup) :
    load_cacheD (save_cacheD c) = c.cache := by
  suffices h : ∀ (l : List ((ℤ × ℤ) × CacheEntry)) (acc : List ((ℤ × ℤ) × CacheEntry)),
      (l.map Prod.fst).Nodup → (∀ k ∈ l.map Prod.fst, k ∉ acc.map Prod.fst) →
      (l.map (fun kv => (kv.1, asdictE kv.2))).foldl
        (fun acc kd =>
          match entryFromDict kd.2 with
          | some e => dictSet acc kd.1 e
          | none => acc) acc = acc ++ l by
    simpa [load_cacheD, save_cacheD] using h c.cache [] hnd (by simp)
  intro l
  induction l with
  | nil =>
    intro acc _ _
    simp
  | cons kv rest ih =>
    intro acc hnd2 hdisj
    have hfresh : dictGet? acc kv.1 = none :=
      (dictGet?_eq_none_iff acc kv.1).mpr
        (hdisj kv.1 (List.mem_map_of_mem Prod.fst (List.mem_cons_self _ _)))
    simp only [List.map_cons, List.foldl_cons, entryFromDict_asdictE]
    rw [dictSet_fresh_eq_append _ _ _ hfresh]
    rw [List.map_cons, List.nodup_cons] at hnd2
    rw [ih (acc ++ [kv]) hnd2.2 ?_]
    · simp
    · intro k hk
      rw [List.map_append, List.mem_append]
      rintro (hka | hkv)
      · exact hdisj k (List.mem_cons_of_mem _ hk) hka
      · simp only [List.map_cons, List.map_nil, List.mem_singleton] at hkv
        exact hnd2.1 (hkv ▸ hk)

/-- C5: `save_cache` followed by `load_cache` into a fresh instance
reproduces the entry dict exactly (given the dict invariant that keys are
unique), so every coordinate stored under its canonical key yields the same
label from `get_city` on the new instance as on the original. -/
theorem save_load_round_trip (c : CityCache) (f : String) (m : Nat) (lat lon : ℚ)
    (e : CacheEntry) (hnd : (c.cache.map Prod.fst).Nodup) :
    (load_into (mkCityCache f m) (save_cacheD c)).cache = c.cache
  ∧ (dictGet? c.cache (_coordinate_key lat lon) = some e →
      get_city (load_into (mkCityCache f m) (save_cacheD c)) lat lon = some e.city
    ∧ get_city c lat lon = some e.city) := by
  have hload : (load_into (mkCityCache f m) (save_cacheD c)).cache = c.cache := by
    simp [load_into, load_of_save c hnd]
  refine ⟨hload, fun hget => ⟨?_, ?_⟩⟩
  · simp only [get_city, hload, hget]
  · simp only [get_city, hget]

/-- Concrete instance of C5, the spec's round-trip scenario: a cache holding
`(40.7128, -74.0060) ↦ "New York"` is saved, loaded into a fresh instance,
and queried at the stored coordinate, returning `"New York"` on both the new
and the original instance. -/
theorem save_load_round_trip_witness :
    get_city (load_into (mkCityCache "city_cache.json" 1000) (save_cacheD
        ⟨"city_cache.json", 1000,
          [(_coordinate_key (407128 / 10000) (-74006 / 1000),
            ⟨407128 / 10000, -74006 / 1000, "New York", 0, "api"⟩)], 1 / 1000⟩))
      (407128 / 10000) (-74006 / 1000) = some "New York"
  ∧ get_city ⟨"city_cache.json", 1000,
        [(_coordinate_key (407128 / 10000) (-74006 / 1000),
          ⟨407128 / 10000, -74006 / 1000, "New York", 0, "api"⟩)], 1 / 1000⟩
      (407128 / 10000) (-74006 / 1000) = some "New York" :=
  (save_load_round_trip
    ⟨"city_cache.json", 1000,
      [(_coordinate_key (407128 / 10000) (-74006 / 1000),
        ⟨407128 / 10000, -74006 / 1000, "New York", 0, "api"⟩)], 1 / 1000⟩
    "city_cache.json" 1000 (407128 / 10000) (-74006 / 1000)
    ⟨407128 / 10000, -74006 / 1000, "New York", 0, "api"⟩ (by simp)).2
    (by simp [dictGet?])

/-! ## Proximity tolerance boundary: claim C9 -/

theorem coordinate_key_shift_lat (x y : ℚ) :
    _coordinate_key (x + 2 / 1000) y = (rhe (x * 1000000) + 2000, rhe (y * 1000000)) := by
  unfold _coordinate_key
  congr 1
  rw [show (x + 2 / 1000) * 1000000 = x * 1000000 + ((2000 : ℤ) : ℚ) by push_cast; ring]
  exact rhe_add_even_int _ 2000 (by decide)

theorem coordinate_key_shift_lon (x y : ℚ) :
    _coordinate_key x (y + 2 / 1000) = (rhe (x * 1000000), rhe (y * 1000000) + 2000) := by
  unfold _coordinate_key
  congr 1
  rw [show (y + 2 / 1000) * 1000000 = y * 1000000 + ((2000 : ℤ) : ℚ) by push_cast; ring]
  exact rhe_add_even_int _ 2000 (by decide)

/-- C9: with the default tolerance `0.001`, a query offset by exactly
`0.001` in each component from a cached entry is within proximity (the
comparison uses `tolerance + 1e-10`), and on a single-entry cache `get_city`
returns that entry's label; a query offset by `0.002` in either single
component is not within proximity and `get_city` misses (the offset key also
differs from the stored canonical key). -/
theorem proximity_tolerance_boundary (c : CityCache) (lat lon : ℚ) (e : CacheEntry)
    (htol : c._coordinate_tolerance = 1 / 1000) :
    (_is_coordinate_close c lat lon (lat + 1 / 1000) (lon + 1 / 1000) = true)
  ∧ (_is_coordinate_close c lat lon (lat + 2 / 1000) lon = false)
  ∧ (_is_coordinate_close c lat lon lat (lon + 2 / 1000) = false)
  ∧ (c.cache = [(_coordinate_key e.latitude e.longitude, e)] →
      get_city c (e.latitude + 1 / 1000) (e.longitude + 1 / 1000) = some e.city
    ∧ get_city c (e.latitude + 2 / 1000) e.longitude = none
    ∧ get_city c e.latitude (e.longitude + 2 / 1000) = none) := by
  have habs1 : ∀ x : ℚ, |x - (x + 1 / 1000)| = 1 / 1000 := by
    intro x
    rw [abs_sub_comm, show x + 1 / 1000 - x = 1 / 1000 by ring]
    exact abs_of_nonneg (by norm_num)
  have habs2 : ∀ x : ℚ, |x - (x + 2 / 1000)| = 2 / 1000 := by
    intro x
    rw [abs_sub_comm, show x + 2 / 1000 - x = 2 / 1000 by ring]
    exact abs_of_nonneg (by norm_num)
  have hclose1 : ∀ a b : ℚ, _is_coordinate_close c a b (a + 1 / 1000) (b + 1 / 1000) = true := by
    intro a b
    simp only [_is_coordinate_close, htol, decide_eq_true_eq]
    rw [habs1, habs1]
    norm_num
  have hfar_lat : ∀ a b b' : ℚ, _is_coordinate_close c a b (a + 2 / 1000) b' = false := by
    intro a b b'
    simp only [_is_coordinate_close, htol, decide_eq_false_iff_not]
    rintro ⟨h1, -⟩
    rw [habs2] at h1
    norm_num at h1
  have hfar_lon : ∀ a a' b : ℚ, _is_coordinate_close c a b a' (b + 2 / 1000) = false := by
    intro a a' b
    simp only [_is_coordinate_close, htol, decide_eq_false_iff_not]
    rintro ⟨-, h2⟩
    rw [habs2] at h2
    norm_num at h2
  refine ⟨hclose1 lat lon, hfar_lat lat lon lon, hfar_lon lat lat lon, fun hcache => ?_⟩
  have hclose1' : _is_coordinate_close c (e.latitude + 1 / 1000) (e.longitude + 1 / 1000)
      e.latitude e.longitude = true := by
    simp only [_is_coordinate_close, htol, decide_eq_true_eq]
    rw [abs_sub_comm, habs1, abs_sub_comm, habs1]
    norm_num
  have hfar_lat' : _is_coordinate_close c (e.latitude + 2 / 1000) e.longitude
      e.latitude e.longitude = false := by
    simp only [_is_coordinate_close, htol, decide_eq_false_iff_not]
    rintro ⟨h1, -⟩
    rw [abs_sub_comm, habs2] at h1
    norm_num at h1
  have hfar_lon' : _is_coordinate_close c e.latitude (e.longitude + 2 / 1000)
      e.latitude e.longitude = false := by
    simp only [_is_coordinate_close, htol, decide_eq_false_iff_not]
    rintro ⟨-, h2⟩
    rw [abs_sub_comm, habs2] at h2
    norm_num at h2
  refine ⟨?_, ?_, ?_⟩
  · simp only [get_city, hcache, dictGet?]
    by_cases hk : _coordinate_key e.latitude e.longitude =
        _coordinate_key (e.latitude + 1 / 1000) (e.longitude + 1 / 1000)
    · rw [if_pos hk]
    · rw [if_neg hk]
      simp only [List.find?, hclose1', Option.map_some']
  · have hkne : ¬ _coordinate_key e.latitude e.longitude =
        _coordinate_key (e.latitude + 2 / 1000) e.longitude := by
      rw [coordinate_key_shift_lat]
      simp only [_coordinate_key, Prod.ext_iff]
      rintro ⟨h1, -⟩
      omega
    simp only [get_city, hcache, dictGet?]
    rw [if_neg hkne]
    simp only [List.find?, hfar_lat', Option.map_none']
  · have hkne : ¬ _coordinate_key e.latitude e.longitude =
        _coordinate_key e.latitude (e.longitude + 2 / 1000) := by
      rw [coordinate_key_shift_lon]
      simp only [_coordinate_key, Prod.ext_iff]
      rintro ⟨-, h2⟩
      omega
    simp only [get_city, hcache, dictGet?]
    rw [if_neg hkne]
    simp only [List.find?, hfar_lon', Option.map_none']

/-- Concrete instance of C9 on a one-entry cache at `(40.7, 10.2)` with the
default tolerance: a query at `+0.001, +0.001` hits, queries at `+0.002` in
one component miss. -/
theorem proximity_tolerance_boundary_witness :
    get_city ⟨"city_cache.json", 1000,
        [(_coordinate_key (407 / 10) (102 / 10), ⟨407 / 10, 102 / 10, "Paris", 0, "api"⟩)],
        1 / 1000⟩ (407 / 10 + 1 / 1000) (102 / 10 + 1 / 1000) = some "Paris"
  ∧ get_city ⟨"city_cache.json", 1000,
        [(_coordinate_key (407 / 10) (102 / 10), ⟨407 / 10, 102 / 10, "Paris", 0, "api"⟩)],
        1 / 1000⟩ (407 / 10 + 2 / 1000) (102 / 10) = none
  ∧ get_city ⟨"city_cache.json", 1000,
        [(_coordinate_key (407 / 10) (102 / 10), ⟨407 / 10, 102 / 10, "Paris", 0, "api"⟩)],
        1 / 1000⟩ (407 / 10) (102 / 10 + 2 / 1000) = none :=
  (proximity_tolerance_boundary
    ⟨"city_cache.json", 1000,
      [(_coordinate_key (407 / 10) (102 / 10), ⟨407 / 10, 102 / 10, "Paris", 0, "api"⟩)],
      1 / 1000⟩ 0 0 ⟨407 / 10, 102 / 10, "Paris", 0, "api"⟩ rfl).2.2.2 rfl
